import Mathlib

/-!
Verification of the BinaryView virtual-address-space module
(`src/python/binaryview.py`) against its natural-language specification.

The Python code is shallowly embedded: pure fragments become Lean
functions, exception-raising fragments return `Except PyExc`, and the
stateful notification / completion-event / queue machinery becomes
explicit transition systems over traces.  Behaviour implemented by the
closed native core (reached through `core.BN*` calls) is modelled from
the specification; every such definition is marked
"Modelled from the spec:" in its doc comment.
-/

/-- Python exception values relevant to the embedded code paths. -/
inductive PyExc where
  | osError (msg : String)
  | valueError (msg : String)
  | indexError (msg : String)
  | syntaxError (msg : String)
  | typeError (msg : String)
  deriving DecidableEq, Repr

/-- Whether an exception is an `OSError` (the only kind the
`_data_written` trampoline catches). -/
def PyExc.isOSError : PyExc → Bool
  | .osError _ => true
  | _ => false

/-! ## C1: BinaryDataNotification delivery (`BinaryDataNotificationCallbacks`) -/

/-- The fixed, closed set of notification event kinds wired up in
`BinaryDataNotificationCallbacks.__init__` (lines 461–483). -/
inductive EventKind where
  | dataWritten
  | dataInserted
  | dataRemoved
  | functionAdded
  | functionRemoved
  | functionUpdated
  | functionUpdateRequested
  | dataVarAdded
  | dataVarRemoved
  | dataVarUpdated
  | dataMetadataUpdated
  | tagTypeUpdated
  | tagAdded
  | tagUpdated
  | tagRemoved
  | symbolAdded
  | symbolUpdated
  | symbolRemoved
  | stringFound
  | stringRemoved
  | typeDefined
  | typeUndefined
  | typeReferenceChanged
  deriving DecidableEq, Repr

/-- Which exceptions the `try`/`except` of the trampoline for each event
kind catches.  `_data_written` (line 491) reads `except OSError:`;
every other `_*` trampoline (lines 497–639 and beyond) reads a bare
`except:` that catches everything. -/
def handlerCatches : EventKind → PyExc → Bool
  | .dataWritten, e => e.isOSError
  | _, _ => true

/-- Text written to the diagnostic log by
`log.log_error(traceback.format_exc())` for a caught exception. -/
def tracebackText (e : PyExc) : String :=
  match e with
  | .osError m => "Traceback: OSError: " ++ m
  | .valueError m => "Traceback: ValueError: " ++ m
  | .indexError m => "Traceback: IndexError: " ++ m
  | .syntaxError m => "Traceback: SyntaxError: " ++ m
  | .typeError m => "Traceback: TypeError: " ++ m

/-- Outcome of a single trampoline invocation: what was written to the
diagnostic log and which exception (if any) escaped the trampoline. -/
structure NotifyOutcome where
  logged : List String
  escaped : Option PyExc
  deriving DecidableEq, Repr

/-- One observer handler: for each event kind it either returns
normally or raises a Python exception. -/
def ObserverHandler : Type := EventKind → Except PyExc Unit

/-- One trampoline invocation for event kind `k` on an observer
handler, embedding the `try:` / `except ...: log.log_error(...)`
structure of `BinaryDataNotificationCallbacks._data_written` /
`_data_inserted` / … (lines 491–639). -/
def deliverEvent (k : EventKind) (handler : ObserverHandler) : NotifyOutcome :=
  match handler k with
  | .ok _ => ⟨[], none⟩
  | .error e =>
    if handlerCatches k e then ⟨[tracebackText e], none⟩ else ⟨[], some e⟩

/-- Modelled from the spec: the native multicast delivery loop behind
`BNRegisterDataNotification` is absent from `src/`; per §4.4 a mutation
event is delivered to all currently-registered observers in
registration order, each through its own trampoline. -/
def notifyAll (k : EventKind) (observers : List ObserverHandler) : List NotifyOutcome :=
  observers.map (deliverEvent k)

/-- An observer whose callback always raises `ValueError "boom"`. -/
def raisingObserver : ObserverHandler := fun _ => .error (.valueError "boom")

/-- An observer whose callback always returns normally. -/
def wellBehavedObserver : ObserverHandler := fun _ => .ok ()

/-! ## C7: default `perform_insert` / `perform_remove` and their
core-callback trampolines `_insert` / `_remove` -/

/-- Default `BinaryView.perform_insert` (lines 2383–2397): always
returns 0 ("inserting is disallowed"), and never raises. -/
def perform_insert (addr : Nat) (data : List Nat) : Except PyExc Nat :=
  .ok 0

/-- Default `BinaryView.perform_remove` (lines 2399–2413): always
returns 0 ("removing data is disallowed"), and never raises. -/
def perform_remove (addr : Nat) (length : Nat) : Except PyExc Nat :=
  .ok 0

/-- The `_insert` core-callback trampoline (lines 2167–2174): calls the
backend's insert operation and turns any exception into a logged 0. -/
def insertDispatch (backend : Nat → List Nat → Except PyExc Nat) (addr : Nat)
    (data : List Nat) : Nat :=
  match backend addr data with
  | .ok n => n
  | .error _ => 0

/-- The `_remove` core-callback trampoline (lines 2176–2181): calls the
backend's remove operation and turns any exception into a logged 0. -/
def removeDispatch (backend : Nat → Nat → Except PyExc Nat) (addr : Nat)
    (length : Nat) : Nat :=
  match backend addr length with
  | .ok n => n
  | .error _ => 0

/-! ## C2: `get_next_valid_offset` over the segment map -/

/-- A segment's virtual range `[vstart, vend)` (data model §3; only the
virtual range matters for validity queries). -/
structure Segment where
  vstart : Nat
  vend : Nat
  deriving DecidableEq, Repr

/-- The segment table and exclusive end bound of an address space
(data model §3: `start`, `end`, ordered set of segments). `end` is a
Lean keyword, hence the field name `endAddr`. -/
structure AddressSpaceMap where
  segments : List Segment
  endAddr : Nat
  deriving DecidableEq, Repr

/-- Modelled from the spec: §8.1 "`is_valid_offset(a) == true` iff `a`
falls within some segment's `[vstart, vend)`" (the segment-table lookup
behind `BNIsValidOffset` is native core code absent from `src/`). -/
def is_valid_offset (m : AddressSpaceMap) (addr : Nat) : Bool :=
  m.segments.any fun s => decide (s.vstart ≤ addr) && decide (addr < s.vend)

/-- The smallest valid offset `≥ addr` contributed by one segment, if
that segment still has addresses at or above `addr`. -/
def segmentNextValid (addr : Nat) (s : Segment) : Option Nat :=
  if max addr s.vstart < s.vend then some (max addr s.vstart) else none

/-- Modelled from the spec: §4.1 "`get_next_valid_offset(addr) ->
addr'`: smallest valid address `>= addr`, or `end` if none".  The
segment-aware implementation behind `BNGetNextValidOffset` is native
core code absent from `src/` (the Python default
`perform_get_next_valid_offset`, lines 2491–2507, is only the fallback
for custom views with no segment table). -/
def get_next_valid_offset (m : AddressSpaceMap) (addr : Nat) : Nat :=
  match (m.segments.filterMap (segmentNextValid addr)).min? with
  | some a => a
  | none => m.endAddr

/-- Default `BinaryView.perform_get_next_valid_offset` (lines
2491–2507): clamps the query address up to the view start and otherwise
returns it unchanged. -/
def perform_get_next_valid_offset (startAddr addr : Nat) : Nat :=
  if addr < startAddr then startAddr else addr

/-- The gap-handling scenario of spec §8.7: segments `[0x1000,0x1010)`
and `[0x2000,0x2010)` only. -/
def gapDemoMap : AddressSpaceMap :=
  ⟨[⟨0x1000, 0x1010⟩, ⟨0x2000, 0x2010⟩], 0x2010⟩

/-! ## C3: `BinaryView.read` -/

/-- The byte-level state a view reads from: bounds plus a partial map
from virtual address to mapped byte value. -/
structure BinaryViewModel where
  start : Nat
  endAddr : Nat
  mem : Nat → Option Nat

/-- Modelled from the spec: §4.1 "returns only the contiguous mapped
prefix (may be shorter than requested, including empty)" — the
behaviour of `BNReadViewBuffer`, which is native core code absent from
`src/`.  Reads bytes starting at `addr`, stopping at the first unmapped
address or after `len` bytes, whichever comes first. -/
def readMapped (mem : Nat → Option Nat) (addr : Nat) : Nat → List Nat
  | 0 => []
  | n + 1 =>
    match mem addr with
    | none => []
    | some b => b :: readMapped mem (addr + 1) n

/-- Result of `BinaryView.read` together with whether the storage layer
(`BNReadViewBuffer`) was reached at all. -/
structure ReadTrace where
  result : Except PyExc (List Nat)
  storageAccessed : Bool

/-- `BinaryView.read` (lines 2727–2748): rejects a negative address or
length by raising `ValueError` before any storage access; otherwise
delegates to the storage layer, which yields the contiguous mapped
prefix of at most `length` bytes. -/
def BinaryView.read (v : BinaryViewModel) (addr length : Int) : ReadTrace :=
  if addr < 0 ∨ length < 0 then
    ⟨.error (.valueError "length and address must both be positive"), false⟩
  else
    ⟨.ok (readMapped v.mem addr.toNat length.toNat), true⟩

/-- A concrete view for witnesses: four bytes `0xAA 0xBB 0xCC 0xDD`
mapped at `[0x1000, 0x1004)` inside bounds `[0x1000, 0x1010)`. -/
def demoView : BinaryViewModel where
  start := 0x1000
  endAddr := 0x1010
  mem := fun a =>
    if a = 0x1000 then some 0xAA
    else if a = 0x1001 then some 0xBB
    else if a = 0x1002 then some 0xCC
    else if a = 0x1003 then some 0xDD
    else none

/-! ## C4: `AnalysisCompletionEvent` -/

/-- The callback slot of an `AnalysisCompletionEvent`: either the
original user callback or `_empty_callback` after `cancel()`
(line 315 replaces `self.callback` with `self._empty_callback`). -/
inductive CallbackSlot where
  | original
  | empty
  deriving DecidableEq, Repr

/-- Observable state of one `AnalysisCompletionEvent`: which callback
is installed, whether the event still sits in the class-level
`_pending_analysis_completion_events` registry, and how many times the
original user callback has actually run. -/
structure CEState where
  slot : CallbackSlot
  pendingReg : Bool
  originalRuns : Nat
  deriving DecidableEq, Repr

/-- State right after `__init__` (lines 279–284): original callback
installed and the event registered in the pending set. -/
def ceInit : CEState := ⟨.original, true, 0⟩

/-- Events acting on one completion event object: the core firing its
`_notify` trampoline (on natural completion or `abort_analysis`), or
the owner calling `cancel()`. -/
inductive CEEvent where
  | notifyFire
  | cancel
  deriving DecidableEq, Repr

/-- One step of the completion-event object, from the source:
`_notify` (lines 292–303) deregisters from the pending set and invokes
whatever callback is currently installed (exceptions are swallowed into
the log); `cancel` (lines 308–318) installs `_empty_callback` and
deregisters.  Only a run of the *original* callback is counted. -/
def ceStep (s : CEState) : CEEvent → CEState
  | .notifyFire =>
    { s with
      pendingReg := false
      originalRuns := s.originalRuns + (if s.slot = .original then 1 else 0) }
  | .cancel => { s with slot := .empty, pendingReg := false }

/-- Run a completion event object through a whole trace of
fire/cancel events, starting from state `s`. -/
def ceRunFrom (s : CEState) (tr : List CEEvent) : CEState :=
  tr.foldl ceStep s

/-- Run a freshly-constructed completion event through a trace. -/
def ceRun (tr : List CEEvent) : CEState :=
  ceRunFrom ceInit tr

/-! ## C5: `find_all_data` with a match callback -/

/-- Wrapper the source puts around the user match callback (line 6100):
`not match_callback(addr, match) is False`, i.e. the search continues
unless the callback returned exactly `False`.  `none` models a callback
that returned `None` (forgot to return a bool). -/
def wrapMatchCallback {α : Type} (cb : Nat → α → Option Bool) : Nat → α → Bool :=
  fun addr m =>
    match cb addr m with
    | some false => false
    | _ => true

/-- Modelled from the spec: the match loop of
`BNFindAllDataWithProgress` is native core code absent from `src/`.
Per §4.7 the callback is "invoked once per hit with (address,
matchedValue); callback return value controls continue/stop" and the
search "returns whether at least one match was found".  Given the
matches in range order, returns (any match found, the hits on which the
callback was invoked, in order). -/
def coreFindLoop {α : Type} (cb : Nat → α → Bool) :
    List (Nat × α) → Bool × List (Nat × α)
  | [] => (false, [])
  | m :: rest =>
    if cb m.1 m.2 then
      (true, m :: (coreFindLoop cb rest).2)
    else
      (true, [m])

/-- `BinaryView.find_all_data` with `match_callback` supplied (lines
6095–6102): wraps the user callback and hands it to the core search. -/
def find_all_data {α : Type} (cb : Nat → α → Option Bool)
    (hits : List (Nat × α)) : Bool × List (Nat × α) :=
  coreFindLoop (wrapMatchCallback cb) hits

/-! ## C6: the streaming form (`BinaryView.QueueGenerator`) -/

/-- Observable state of the streaming search: the queue contents, the
background thread's liveness, everything published so far, everything
delivered to the consumer so far, and whether the sequence has ended
(`StopIteration` raised). -/
structure QState (α : Type) where
  queue : List α
  alive : Bool
  pubs : List α
  delivered : List α
  ended : Bool
  deriving DecidableEq, Repr

/-- State when `find_all_data` returns the generator (lines 6103–6113):
fresh empty `queue.Queue`, background thread started. -/
def qInit (α : Type) : QState α := ⟨[], true, [], [], false⟩

/-- Events of the streaming search: the background search context
publishing one match to the queue (the core match callback at lines
6105–6108 does `results.put(...)`), the background thread finishing,
and the consumer calling `__next__`. -/
inductive QEvent (α : Type) where
  | publish (a : α)
  | complete
  | next
  deriving DecidableEq, Repr

/-- One enabled transition.  `publish`/`complete` need a live thread.
`next` embeds `QueueGenerator.__next__` (lines 6044–6050): it is
enabled — the busy-wait loop exits — exactly when the queue is
non-empty (deliver the front, FIFO) or the thread is dead with an empty
queue (raise `StopIteration`, marking the sequence ended); otherwise the
call blocks, which the model expresses as the event being disabled.
Calling `next` on an ended sequence is disabled for good: the thread
never revives, so the loop re-raises `StopIteration` on every call. -/
def qStep {α : Type} (s : QState α) : QEvent α → Option (QState α)
  | .publish a =>
    if s.alive then
      some { s with queue := s.queue ++ [a], pubs := s.pubs ++ [a] }
    else none
  | .complete =>
    if s.alive then some { s with alive := false } else none
  | .next =>
    if s.ended then none
    else
      match s.queue with
      | a :: rest => some { s with queue := rest, delivered := s.delivered ++ [a] }
      | [] => if s.alive then none else some { s with ended := true }

/-- Run the streaming search through a trace of enabled events. -/
def qRun {α : Type} : QState α → List (QEvent α) → Option (QState α)
  | s, [] => some s
  | s, e :: tr =>
    match qStep s e with
    | none => none
    | some s2 => qRun s2 tr

/-! ## C8: `parse_type_string` / `parse_types_from_string` -/

/-- Answer of the type-parser collaborator (`BNParseTypeString` /
`BNParseTypesString`): success with a value, or rejection with the
human-readable error string the core hands back through the `errors`
out-parameter. -/
inductive ParseOutcome (β : Type) where
  | ok (val : β)
  | fail (msg : String)
  deriving DecidableEq, Repr

/-- The grouped result `parse_types_from_string` builds (lines
5557–5570): types, variables and functions, each a name-to-type
association. -/
structure TypeParserResult (Name Ty : Type) where
  types : List (Name × Ty)
  vars : List (Name × Ty)
  funcs : List (Name × Ty)
  deriving DecidableEq, Repr

/-- `BinaryView.parse_type_string` (lines 5498–5526): if the parser
collaborator rejects the text, raise `SyntaxError` carrying the
collaborator's message; otherwise return the `(type, name)` tuple. -/
def parse_type_string {Ty Name : Type}
    (typeParserCollab : String → ParseOutcome (Ty × Name)) (text : String) :
    Except PyExc (Ty × Name) :=
  match typeParserCollab text with
  | .ok v => .ok v
  | .fail msg => .error (.syntaxError msg)

/-- `BinaryView.parse_types_from_string` (lines 5528–5570): if the
parser collaborator rejects the text, raise `SyntaxError` carrying the
collaborator's message; otherwise package the parsed types, variables
and functions. -/
def parse_types_from_string {Name Ty : Type}
    (typesParserCollab :
      String → ParseOutcome (List (Name × Ty) × List (Name × Ty) × List (Name × Ty)))
    (text : String) : Except PyExc (TypeParserResult Name Ty) :=
  match typesParserCollab text with
  | .ok (ts, vs, fs) => .ok ⟨ts, vs, fs⟩
  | .fail msg => .error (.syntaxError msg)

/-- A concrete parser collaborator for witnesses: accepts exactly the
text "int foo". -/
def demoTypeCollab : String → ParseOutcome (Nat × String) := fun text =>
  if text = "int foo" then .ok (32, "foo") else .fail "syntax error at token"

/-- A concrete grouped parser collaborator for witnesses. -/
def demoTypesCollab :
    String → ParseOutcome (List (String × Nat) × List (String × Nat) × List (String × Nat)) :=
  fun text =>
    if text = "int foo;" then .ok ([], [("foo", 32)], []) else .fail "invalid declaration"

/-! ## C9: `analysis_info` / `analysis_progress` snapshots -/

/-- One entry of the scheduler's live active-analysis list
(`BNActiveAnalysisInfo`): function id plus the three counters copied
out at lines 1948–1949. -/
structure ActiveRec where
  funcId : Nat
  analysisTime : Nat
  updateCount : Nat
  submitCount : Nat
  deriving DecidableEq, Repr

/-- The scheduler's live, mutable analysis state (the data behind
`BNGetAnalysisInfo` / `BNGetAnalysisProgress`). -/
structure SchedLive where
  state : Nat
  analysisTime : Nat
  active : List ActiveRec
  count : Nat
  total : Nat
  deriving DecidableEq, Repr

/-- Heap objects: the scheduler's live-state cell, and the freshly
constructed Python objects `ActiveAnalysisInfo`, `AnalysisInfo`
(holding references to its `ActiveAnalysisInfo` entries) and
`AnalysisProgress`. -/
inductive HObj where
  | sched (live : SchedLive)
  | activeInfo (r : ActiveRec)
  | analysisInfo (state : Nat) (analysisTime : Nat) (activeRefs : List Nat)
  | analysisProgress (state : Nat) (count : Nat) (total : Nat)
  deriving DecidableEq, Repr

/-- An explicit heap, so that "fresh copy" versus "alias" is a provable
distinction: a bump allocator plus a partial map from address to
object. -/
structure Heap where
  nextAddr : Nat
  mem : Nat → Option HObj

/-- Allocate one object at a fresh address. -/
def halloc (h : Heap) (o : HObj) : Nat × Heap :=
  (h.nextAddr,
    ⟨h.nextAddr + 1, fun a => if a = h.nextAddr then some o else h.mem a⟩)

/-- Overwrite the object stored at an existing address (how analysis
activity mutates the scheduler's live cell). -/
def hwrite (h : Heap) (addr : Nat) (o : HObj) : Heap :=
  ⟨h.nextAddr, fun a => if a = addr then some o else h.mem a⟩

/-- The loop at lines 1946–1950: construct one fresh
`ActiveAnalysisInfo` object per live entry, returning the fresh
references in order. -/
def allocActives (h : Heap) : List ActiveRec → List Nat × Heap
  | [] => ([], h)
  | r :: rest =>
    let p := halloc h (.activeInfo r)
    let q := allocActives p.2 rest
    (p.1 :: q.1, q.2)

/-- `BinaryView.analysis_info` (lines 1933–1953): read the scheduler's
live state, build a fresh `ActiveAnalysisInfo` list and a fresh
`AnalysisInfo` from it, free the core struct, and return the new
object. -/
def analysis_info (h : Heap) (root : Nat) : Option (Nat × Heap) :=
  match h.mem root with
  | some (.sched live) =>
    let q := allocActives h live.active
    let p := halloc q.2 (.analysisInfo live.state live.analysisTime q.1)
    some (p.1, p.2)
  | _ => none

/-- `BinaryView.analysis_progress` (lines 1955–1959): copy the three
scalar fields of the live progress into a fresh `AnalysisProgress`. -/
def analysis_progress (h : Heap) (root : Nat) : Option (Nat × Heap) :=
  match h.mem root with
  | some (.sched live) =>
    let p := halloc h (.analysisProgress live.state live.count live.total)
    some (p.1, p.2)
  | _ => none

/-- Dereference a list of `ActiveAnalysisInfo` references. -/
def readActives (h : Heap) : List Nat → Option (List ActiveRec)
  | [] => some []
  | a :: rest =>
    match h.mem a with
    | some (.activeInfo r) =>
      match readActives h rest with
      | some rs => some (r :: rs)
      | none => none
    | _ => none

/-- What a consumer of a returned `AnalysisInfo` object observes: its
state, analysis time, and the dereferenced active-info entries. -/
def readSnapshot (h : Heap) (ai : Nat) : Option (Nat × Nat × List ActiveRec) :=
  match h.mem ai with
  | some (.analysisInfo st t refs) =>
    match readActives h refs with
    | some rs => some (st, t, rs)
    | none => none
  | _ => none

/-- A concrete live scheduler state for witnesses. -/
def demoLive : SchedLive :=
  ⟨2, 150, [⟨7, 40, 3, 1⟩, ⟨9, 12, 1, 2⟩], 5, 11⟩

/-- A mutated live scheduler state for witnesses. -/
def demoLive2 : SchedLive :=
  ⟨3, 999, [⟨7, 41, 4, 1⟩], 6, 11⟩

/-- A concrete heap whose scheduler cell sits at address 0. -/
def demoHeap : Heap :=
  ⟨1, fun a => if a = 0 then some (.sched demoLive) else none⟩

/-! ## C10: `BinaryView.__getitem__` -/

/-- `len(view)` (`BNGetViewLength`).  Modelled from the spec: §3 gives
the addressable virtual range `[start, end)` with `start <= end`, so
the view length is `end - start`. -/
def view_len (v : BinaryViewModel) : Nat :=
  v.endAddr - v.start

/-- CPython `slice.indices(length)` for step `+1`, as invoked at line
1465 with `length := self.end`: `None` bounds default to `0` /
`length`; negative bounds are offset by `length`; everything is clamped
into `[0, length]`. -/
def sliceIndices (startIdx stopIdx : Option Int) (length : Int) : Int × Int :=
  let clamp : Int → Int := fun s =>
    if s < 0 then max (s + length) 0 else min s length
  (match startIdx with
   | none => 0
   | some s => clamp s,
   match stopIdx with
   | none => length
   | some s => clamp s)

/-- The single-byte read shared by the integer branches of
`__getitem__`: `value = self.read(a, 1)`, then `IndexError("index not
readable")` when the result is empty. -/
def getitemByteAt (v : BinaryViewModel) (a : Int) : Except PyExc (List Nat) :=
  match (BinaryView.read v a 1).result with
  | .ok bs => if bs.length = 0 then .error (.indexError "index not readable") else .ok bs
  | .error e => .error e

/-- `BinaryView.__getitem__` with an integer index (lines 1471–1484):
a negative index within `-len(view)` reads at `len(view) + i`; an index
in `[start, end)` reads one byte at `i`; anything else raises
`IndexError("index out of range")`. -/
def getitem_int (v : BinaryViewModel) (i : Int) : Except PyExc (List Nat) :=
  if i < 0 then
    if -(view_len v : Int) ≤ i then getitemByteAt v ((view_len v : Int) + i)
    else .error (.indexError "index out of range")
  else if (v.start : Int) ≤ i ∧ i < (v.endAddr : Int) then
    getitemByteAt v i
  else .error (.indexError "index out of range")

/-- `BinaryView.__getitem__` with a slice (lines 1462–1470): a step
raises `IndexError("step not implemented")`; otherwise the bounds are
clamped by `i.indices(self.end)`, a degenerate range returns `b""`, and
anything else is a plain `read`. -/
def getitem_slice (v : BinaryViewModel) (startIdx stopIdx stepIdx : Option Int) :
    Except PyExc (List Nat) :=
  match stepIdx with
  | some _ => .error (.indexError "step not implemented")
  | none =>
    let p := sliceIndices startIdx stopIdx (v.endAddr : Int)
    if p.2 ≤ p.1 then .ok []
    else
      match (BinaryView.read v p.1 (p.2 - p.1)).result with
      | .ok bs => .ok bs
      | .error e => .error e

/-! ## Theorems -/

/-- Claim C7: with the default backend (`perform_insert` /
`perform_remove` not overridden), `insert` and `remove` report 0 for
every address, data and length — "not supported" — rather than
raising. -/
theorem default_insert_remove_report_zero (addr length : Nat) (data : List Nat) :
    insertDispatch perform_insert addr data = 0 ∧
    removeDispatch perform_remove addr length = 0 :=
  ⟨rfl, rfl⟩

/-- Claim C1, evaluated at the failing input: an observer whose
`data_written` handler raises `ValueError` has the exception escape the
notification trampoline with nothing written to the diagnostic log
(line 494 catches only `OSError`), whereas the same observer raising
during `data_inserted` is caught and logged; delivery of `data_written`
to a raising observer followed by a well-behaved one leaks the
exception from the first trampoline instead of logging it. -/
theorem data_written_exception_escapes :
    (deliverEvent .dataWritten raisingObserver).escaped =
      some (.valueError "boom") ∧
    (deliverEvent .dataWritten raisingObserver).logged = [] ∧
    (deliverEvent .dataWritten
      (fun _ => .error (.osError "disk"))).escaped = none ∧
    (deliverEvent .dataInserted raisingObserver).escaped = none ∧
    (deliverEvent .dataInserted raisingObserver).logged =
      [tracebackText (.valueError "boom")] ∧
    notifyAll .dataWritten [raisingObserver, wellBehavedObserver] =
      [⟨[], some (.valueError "boom")⟩, ⟨[], none⟩] :=
  ⟨rfl, rfl, rfl, rfl, rfl, rfl⟩

/-- Claim C8: `parse_type_string` / `parse_types_from_string` raise a
`SyntaxError` carrying the parser collaborator's message exactly when
the collaborator rejects the input, raise nothing else, and on success
return the parsed value without raising. -/
theorem parse_type_string_spec {Ty Name : Type}
    (typeParserCollab : String → ParseOutcome (Ty × Name))
    (typesParserCollab :
      String → ParseOutcome (List (Name × Ty) × List (Name × Ty) × List (Name × Ty)))
    (text : String) :
    (∀ msg, parse_type_string typeParserCollab text = .error (.syntaxError msg) ↔
       typeParserCollab text = .fail msg) ∧
    (∀ e, parse_type_string typeParserCollab text = .error e →
       ∃ msg, e = .syntaxError msg ∧ typeParserCollab text = .fail msg) ∧
    (∀ v, parse_type_string typeParserCollab text = .ok v ↔
       typeParserCollab text = .ok v) ∧
    (∀ msg, parse_types_from_string typesParserCollab text =
        .error (.syntaxError msg) ↔ typesParserCollab text = .fail msg) ∧
    (∀ e, parse_types_from_string typesParserCollab text = .error e →
       ∃ msg, e = .syntaxError msg ∧ typesParserCollab text = .fail msg) ∧
    (∀ ts vs fs, parse_types_from_string typesParserCollab text = .ok ⟨ts, vs, fs⟩ ↔
       typesParserCollab text = .ok (ts, vs, fs)) := by
  refine ⟨?_, ?_, ?_, ?_, ?_, ?_⟩
  · intro msg
    cases h : typeParserCollab text <;> simp [parse_type_string, h]
  · intro e he
    cases h : typeParserCollab text <;> simp [parse_type_string, h] at he
    exact ⟨_, he.symm, rfl⟩
  · intro v
    cases h : typeParserCollab text <;> simp [parse_type_string, h]
  · intro msg
    rcases h : typesParserCollab text with ⟨ts, vs, fs⟩ | m <;>
      simp [parse_types_from_string, h]
  · intro e he
    rcases h : typesParserCollab text with ⟨ts, vs, fs⟩ | m <;>
      simp [parse_types_from_string, h] at he
    exact ⟨_, he.symm, rfl⟩
  · intro ts vs fs
    rcases h : typesParserCollab text with ⟨ts2, vs2, fs2⟩ | m <;>
      simp [parse_types_from_string, h, TypeParserResult.mk.injEq]

/-- Witness for claim C8 at a concrete collaborator and inputs. -/
theorem parse_type_string_spec_witness :
    parse_type_string demoTypeCollab "int @@" =
      .error (.syntaxError "syntax error at token") ∧
    parse_type_string demoTypeCollab "int foo" = .ok (32, "foo") ∧
    parse_types_from_string demoTypesCollab "junk" =
      .error (.syntaxError "invalid declaration") :=
  ⟨((parse_type_string_spec demoTypeCollab demoTypesCollab "int @@").1
      "syntax error at token").mpr rfl,
   ((parse_type_string_spec demoTypeCollab demoTypesCollab "int foo").2.2.1
      (32, "foo")).mpr rfl,
   ((parse_type_string_spec demoTypeCollab demoTypesCollab "junk").2.2.2.1
      "invalid declaration").mpr rfl⟩

/-- The core search loop reports a match found iff the range held at
least one hit. -/
theorem coreFindLoop_found {α : Type} (cb : Nat → α → Bool)
    (hits : List (Nat × α)) : (coreFindLoop cb hits).1 = !hits.isEmpty := by
  cases hits with
  | nil => rfl
  | cons m rest =>
    by_cases hc : cb m.1 m.2 <;> simp [coreFindLoop, hc]

/-- The hits on which the core loop invokes the callback are exactly
the leading hits the callback lets continue, plus the one hit on which
it first returns stop. -/
theorem coreFindLoop_invocations {α : Type} (cb : Nat → α → Bool)
    (hits : List (Nat × α)) :
    (coreFindLoop cb hits).2 =
      hits.take ((hits.takeWhile fun m => cb m.1 m.2).length + 1) := by
  induction hits with
  | nil => rfl
  | cons m rest ih =>
    by_cases hc : cb m.1 m.2
    · simp [coreFindLoop, hc, List.takeWhile_cons, ih]
    · simp [coreFindLoop, hc, List.takeWhile_cons]

/-- Claim C5: with a match callback supplied, `find_all_data` invokes
the callback once per hit in range order, stops as soon as the wrapped
callback returns `False` (so an always-`False` callback is invoked on
exactly one hit even when more exist), and returns whether at least one
match was found. -/
theorem find_all_data_spec {α : Type} (cb : Nat → α → Option Bool)
    (hits : List (Nat × α)) :
    (find_all_data cb hits).1 = !hits.isEmpty ∧
    (find_all_data cb hits).2 =
      hits.take ((hits.takeWhile fun m => wrapMatchCallback cb m.1 m.2).length + 1) ∧
    ((∀ a m, cb a m = some false) → hits ≠ [] →
      (find_all_data cb hits).2.length = 1 ∧ (find_all_data cb hits).1 = true) := by
  refine ⟨coreFindLoop_found _ hits, coreFindLoop_invocations _ hits, ?_⟩
  intro hfalse hne
  cases hits with
  | nil => exact absurd rfl hne
  | cons m rest =>
    constructor
    · have hm : wrapMatchCallback cb m.1 m.2 = false := by
        simp [wrapMatchCallback, hfalse m.1 m.2]
      simp [find_all_data, coreFindLoop, wrapMatchCallback, hfalse m.1 m.2]
    · simp [find_all_data, coreFindLoop_found]

/-- Witness for claim C5: an always-`False` callback over two hits is
invoked exactly once and the search still reports success. -/
theorem find_all_data_spec_witness :
    (find_all_data (fun _ _ => (some false : Option Bool))
      [(1, (10 : Nat)), (2, 20)]).2.length = 1 ∧
    (find_all_data (fun _ _ => (some false : Option Bool))
      [(1, (10 : Nat)), (2, 20)]).1 = true :=
  (find_all_data_spec (fun _ _ => some false) [(1, 10), (2, 20)]).2.2
    (fun _ _ => rfl) (by simp)

/-- Folding the completion-event step over an appended trace. -/
theorem ceRunFrom_append (s : CEState) (tr1 tr2 : List CEEvent) :
    ceRunFrom s (tr1 ++ tr2) = ceRunFrom (ceRunFrom s tr1) tr2 :=
  List.foldl_append ..

/-- The original callback cannot run more often than the core fires
`_notify`. -/
theorem ceRunFrom_runs_le (s : CEState) (tr : List CEEvent) :
    (ceRunFrom s tr).originalRuns ≤ s.originalRuns + tr.count .notifyFire := by
  induction tr generalizing s with
  | nil => simp [ceRunFrom]
  | cons e tr ih =>
    have h := ih (ceStep s e)
    cases e with
    | notifyFire =>
      by_cases hs : s.slot = CallbackSlot.original <;>
        simp [ceRunFrom, ceStep, hs, List.count_cons] at h ⊢ <;> omega
    | cancel =>
      simp [ceRunFrom, ceStep, List.count_cons] at h ⊢
      omega

/-- Once `_empty_callback` is installed it stays installed, and the
original callback never runs again. -/
theorem ceRunFrom_empty_slot (s : CEState) (tr : List CEEvent)
    (hs : s.slot = .empty) :
    (ceRunFrom s tr).slot = .empty ∧
    (ceRunFrom s tr).originalRuns = s.originalRuns := by
  induction tr generalizing s with
  | nil => exact ⟨hs, rfl⟩
  | cons e tr ih =>
    have hslot : (ceStep s e).slot = CallbackSlot.empty := by
      cases e <;> simp [ceStep, hs]
    have hruns : (ceStep s e).originalRuns = s.originalRuns := by
      cases e <;> simp [ceStep, hs]
    have h2 := ih (ceStep s e) hslot
    exact ⟨h2.1, h2.2.trans hruns⟩

/-- Claim C4: given that the core fires a completion event's `_notify`
at most once (natural completion, `cancel()` and `abort_analysis()` in
any interleaving), the original callback runs at most once; after a
`cancel()` the original callback never runs again, whatever follows;
and a `cancel()` issued after the callback has fired does not change
how often it ran. -/
theorem analysis_completion_event_exactly_once
    (tr tr1 tr2 : List CEEvent) (hcore : tr.count .notifyFire ≤ 1) :
    (ceRun tr).originalRuns ≤ 1 ∧
    (ceRun (tr1 ++ CEEvent.cancel :: tr2)).originalRuns =
      (ceRun tr1).originalRuns ∧
    (ceRun (tr ++ [CEEvent.cancel])).originalRuns = (ceRun tr).originalRuns := by
  refine ⟨?_, ?_, ?_⟩
  · have h := ceRunFrom_runs_le ceInit tr
    simp [ceRun, ceInit] at h ⊢
    omega
  · have hsplit : ceRun (tr1 ++ CEEvent.cancel :: tr2) =
        ceRunFrom (ceStep (ceRun tr1) .cancel) tr2 := by
      simp [ceRun, ceRunFrom_append, ceRunFrom, List.foldl_cons]
    rw [hsplit]
    have h := ceRunFrom_empty_slot (ceStep (ceRun tr1) .cancel) tr2 rfl
    rw [h.2]
    rfl
  · rw [ceRun, ceRunFrom_append]
    rfl

/-- Witness for claim C4: one natural firing, then a late `cancel`; and
a `cancel` issued before the firing suppresses the callback. -/
theorem analysis_completion_event_exactly_once_witness :
    (ceRun [CEEvent.notifyFire]).originalRuns ≤ 1 ∧
    (ceRun ([] ++ CEEvent.cancel :: [CEEvent.notifyFire])).originalRuns =
      (ceRun []).originalRuns ∧
    (ceRun ([CEEvent.notifyFire] ++ [CEEvent.cancel])).originalRuns =
      (ceRun [CEEvent.notifyFire]).originalRuns :=
  analysis_completion_event_exactly_once [CEEvent.notifyFire] []
    [CEEvent.notifyFire] (by decide)

/-- One enabled step of the streaming search preserves the stream
invariant: published = delivered ++ queued, and an ended stream has a
dead thread and an empty queue. -/
theorem qStep_inv {α : Type} (s s2 : QState α) (e : QEvent α)
    (h : qStep s e = some s2)
    (h1 : s.pubs = s.delivered ++ s.queue)
    (h2 : s.ended = true → s.alive = false ∧ s.queue = []) :
    s2.pubs = s2.delivered ++ s2.queue ∧
    (s2.ended = true → s2.alive = false ∧ s2.queue = []) := by
  cases e with
  | publish a =>
    by_cases ha : s.alive = true
    · simp [qStep, ha] at h
      subst h
      refine ⟨by simp [h1], ?_⟩
      intro hend
      simp at hend
      exact absurd ha (by simp [(h2 hend).1])
    · simp [qStep] at h
      exact absurd h.1 (by simpa using ha)
  | complete =>
    by_cases ha : s.alive = true
    · simp [qStep, ha] at h
      subst h
      refine ⟨h1, ?_⟩
      intro hend
      simp at hend
      exact ⟨rfl, (h2 hend).2⟩
    · simp [qStep] at h
      exact absurd h.1 (by simpa using ha)
  | next =>
    by_cases hend : s.ended = true
    · simp [qStep, hend] at h
    · cases hq : s.queue with
      | cons a rest =>
        simp [qStep, hend, hq] at h
        subst h
        simp [h1, hq]
      | nil =>
        by_cases ha : s.alive = true
        · simp [qStep, hend, hq, ha] at h
        · have ha2 : s.alive = false := by simpa using ha
          simp [qStep, hend, hq, ha2] at h
          subst h
          refine ⟨?_, fun _ => ⟨rfl, rfl⟩⟩
          simpa [hq] using h1

/-- The stream invariant holds after any enabled trace from any state
satisfying it. -/
theorem qRun_inv {α : Type} (tr : List (QEvent α)) (s s2 : QState α)
    (h : qRun s tr = some s2)
    (h1 : s.pubs = s.delivered ++ s.queue)
    (h2 : s.ended = true → s.alive = false ∧ s.queue = []) :
    s2.pubs = s2.delivered ++ s2.queue ∧
    (s2.ended = true → s2.alive = false ∧ s2.queue = []) := by
  induction tr generalizing s with
  | nil =>
    simp [qRun] at h
    subst h
    exact ⟨h1, h2⟩
  | cons e tr ih =>
    cases hstep : qStep s e with
    | none => simp [qRun, hstep] at h
    | some smid =>
      have hmid := qStep_inv s smid e hstep h1 h2
      have hrest : qRun smid tr = some s2 := by
        simpa [qRun, hstep] using h
      exact ih smid hrest hmid.1 hmid.2

/-- Claim C6: along any enabled trace of the streaming search, matches
are delivered to the consumer in publication order (published =
delivered ++ still queued); the sequence ends only once the background
task has completed and every match published before completion has been
delivered; an ended sequence is dead — no event, in particular no
further `next`, is ever enabled again; and while the sequence has not
ended, `next` can return exactly when a match is queued or the
background task has completed (otherwise the call blocks). -/
theorem queue_generator_stream_spec {α : Type} (tr : List (QEvent α))
    (s : QState α) (h : qRun (qInit α) tr = some s) :
    s.pubs = s.delivered ++ s.queue ∧
    (s.ended = true → s.alive = false ∧ s.delivered = s.pubs) ∧
    (s.ended = true → ∀ e, qStep s e = none) ∧
    (s.ended = false →
      ((∃ s2, qStep s .next = some s2) ↔ (s.queue ≠ [] ∨ s.alive = false))) := by
  have hinv := qRun_inv tr (qInit α) s h (by simp [qInit]) (by simp [qInit])
  refine ⟨hinv.1, ?_, ?_, ?_⟩
  · intro hend
    obtain ⟨ha, hq⟩ := hinv.2 hend
    refine ⟨ha, ?_⟩
    rw [hinv.1, hq]
    simp
  · intro hend e
    obtain ⟨ha, hq⟩ := hinv.2 hend
    cases e <;> simp [qStep, ha, hend, hq]
  · intro hend
    constructor
    · rintro ⟨s2, hs2⟩
      by_contra hcon
      push_neg at hcon
      obtain ⟨hq, ha⟩ := hcon
      have hq2 : s.queue = [] := by simpa using hq
      have ha2 : s.alive = true := by
        cases hh : s.alive
        · exact absurd hh ha
        · rfl
      simp [qStep, hend, hq2, ha2] at hs2
    · intro hor
      cases hq : s.queue with
      | cons a rest =>
        exact ⟨{ s with queue := rest, delivered := s.delivered ++ [a] },
          by simp [qStep, hend, hq]⟩
      | nil =>
        have ha : s.alive = false := by
          rcases hor with hne | ha
          · exact absurd hq hne
          · exact ha
        exact ⟨{ s with ended := true }, by simp [qStep, hend, hq, ha]⟩

/-- Witness for claim C6: publish 7 and 8, complete, then three `next`
calls deliver 7 then 8 in order and end the sequence. -/
theorem queue_generator_stream_spec_witness :
    (⟨[], false, [7, 8], [7, 8], true⟩ : QState Nat).pubs =
      ([7, 8] : List Nat) ++ [] ∧
    ((⟨[], false, [7, 8], [7, 8], true⟩ : QState Nat).ended = true →
      (⟨[], false, [7, 8], [7, 8], true⟩ : QState Nat).alive = false ∧
      (⟨[], false, [7, 8], [7, 8], true⟩ : QState Nat).delivered =
        (⟨[], false, [7, 8], [7, 8], true⟩ : QState Nat).pubs) :=
  have h := queue_generator_stream_spec
    [QEvent.publish 7, QEvent.publish 8, QEvent.complete, QEvent.next,
      QEvent.next, QEvent.next]
    (⟨[], false, [7, 8], [7, 8], true⟩ : QState Nat) (by rfl)
  ⟨h.1, h.2.1⟩

/-- The storage layer returns at most the requested number of bytes. -/
theorem readMapped_length_le (mem : Nat → Option Nat) (addr n : Nat) :
    (readMapped mem addr n).length ≤ n := by
  induction n generalizing addr with
  | zero => simp [readMapped]
  | succ n ih =>
    cases hm : mem addr with
    | none => simp [readMapped, hm]
    | some b => simpa [readMapped, hm] using ih (addr + 1)

/-- Every byte the storage layer returns is the mapped byte at the
corresponding address: the result is a contiguous mapped run. -/
theorem readMapped_mapped (mem : Nat → Option Nat) (addr n : Nat) :
    ∀ i (hi : i < (readMapped mem addr n).length),
      mem (addr + i) = some ((readMapped mem addr n).get ⟨i, hi⟩) := by
  induction n generalizing addr with
  | zero => intro i hi; simp [readMapped] at hi
  | succ n ih =>
    intro i hi
    cases hm : mem addr with
    | none => simp [readMapped, hm] at hi
    | some b =>
      cases i with
      | zero => simpa [readMapped, hm] using hm
      | succ i =>
        have hi2 : i < (readMapped mem (addr + 1) n).length := by
          simpa [readMapped, hm] using hi
        have := ih (addr + 1) i hi2
        simpa [readMapped, hm, Nat.add_comm, Nat.add_assoc, Nat.add_left_comm]
          using this

/-- When the storage layer returns fewer bytes than requested, the
address right after the returned run is unmapped: the result is the
maximal contiguous mapped run, cut only by the requested length. -/
theorem readMapped_stops_unmapped (mem : Nat → Option Nat) (addr n : Nat)
    (hlt : (readMapped mem addr n).length < n) :
    mem (addr + (readMapped mem addr n).length) = none := by
  induction n generalizing addr with
  | zero => simp [readMapped] at hlt
  | succ n ih =>
    cases hm : mem addr with
    | none => simpa [readMapped, hm] using hm
    | some b =>
      have hlt2 : (readMapped mem (addr + 1) n).length < n := by
        simpa [readMapped, hm] using hlt
      have := ih (addr + 1) hlt2
      simpa [readMapped, hm, Nat.add_comm, Nat.add_assoc, Nat.add_left_comm]
        using this

/-- Claim C3: for non-negative address and length, `read` returns the
contiguous mapped run of at most `length` bytes (possibly empty) and
never raises; for a negative address or length it raises `ValueError`
before any storage access. -/
theorem read_spec (v : BinaryViewModel) (addr length : Int) :
    (0 ≤ addr → 0 ≤ length →
      ∃ bs, (BinaryView.read v addr length).result = .ok bs ∧
        (BinaryView.read v addr length).storageAccessed = true ∧
        bs.length ≤ length.toNat ∧
        (∀ i (hi : i < bs.length),
          v.mem (addr.toNat + i) = some (bs.get ⟨i, hi⟩)) ∧
        (bs.length < length.toNat → v.mem (addr.toNat + bs.length) = none)) ∧
    (addr < 0 ∨ length < 0 →
      (BinaryView.read v addr length).result =
        .error (.valueError "length and address must both be positive") ∧
      (BinaryView.read v addr length).storageAccessed = false) := by
  constructor
  · intro ha hl
    have hcond : ¬(addr < 0 ∨ length < 0) := by omega
    refine ⟨readMapped v.mem addr.toNat length.toNat, ?_, ?_, ?_, ?_, ?_⟩
    · simp [BinaryView.read, hcond]
    · simp [BinaryView.read, hcond]
    · exact readMapped_length_le v.mem addr.toNat length.toNat
    · exact readMapped_mapped v.mem addr.toNat length.toNat
    · exact readMapped_stops_unmapped v.mem addr.toNat length.toNat
  · intro hneg
    constructor <;> simp [BinaryView.read, hneg]

/-- Witness for claim C3 on the demo view: an 8-byte request over a
partially mapped range, and a rejected negative address. -/
theorem read_spec_witness :
    (∃ bs, (BinaryView.read demoView 0x1000 8).result = .ok bs ∧
      (BinaryView.read demoView 0x1000 8).storageAccessed = true ∧
      bs.length ≤ (8 : Int).toNat ∧
      (∀ i (hi : i < bs.length),
        demoView.mem ((0x1000 : Int).toNat + i) = some (bs.get ⟨i, hi⟩)) ∧
      (bs.length < (8 : Int).toNat →
        demoView.mem ((0x1000 : Int).toNat + bs.length) = none)) ∧
    (BinaryView.read demoView (-1) 4).result =
      .error (.valueError "length and address must both be positive") ∧
    (BinaryView.read demoView (-1) 4).storageAccessed = false :=
  ⟨(read_spec demoView 0x1000 8).1 (by decide) (by decide),
   (read_spec demoView (-1) 4).2 (Or.inl (by decide))⟩

/-- Membership in the candidate list of `get_next_valid_offset`
unfolded: a candidate is `max addr vstart` for a segment that still has
addresses at or above `addr`. -/
theorem mem_nextValid_candidates (m : AddressSpaceMap) (addr a : Nat) :
    a ∈ m.segments.filterMap (segmentNextValid addr) ↔
      ∃ s ∈ m.segments, max addr s.vstart < s.vend ∧ a = max addr s.vstart := by
  rw [List.mem_filterMap]
  constructor
  · rintro ⟨s, hs, hsome⟩
    by_cases hc : max addr s.vstart < s.vend
    · refine ⟨s, hs, hc, ?_⟩
      simpa [segmentNextValid, hc] using hsome.symm
    · simp [segmentNextValid, hc] at hsome
  · rintro ⟨s, hs, hc, rfl⟩
    exact ⟨s, hs, by simp [segmentNextValid, hc]⟩

/-- Every candidate is a valid offset at or above the query address. -/
theorem candidate_valid (m : AddressSpaceMap) (addr a : Nat)
    (ha : a ∈ m.segments.filterMap (segmentNextValid addr)) :
    is_valid_offset m a = true ∧ addr ≤ a := by
  obtain ⟨s, hs, hc, rfl⟩ := (mem_nextValid_candidates m addr a).mp ha
  refine ⟨?_, Nat.le_max_left _ _⟩
  simp only [is_valid_offset, List.any_eq_true]
  exact ⟨s, hs, by simp [Nat.le_max_right addr s.vstart, hc]⟩

/-- Every valid offset at or above the query address sits at or above
some candidate. -/
theorem valid_has_candidate (m : AddressSpaceMap) (addr b : Nat)
    (hv : is_valid_offset m b = true) (hb : addr ≤ b) :
    ∃ a ∈ m.segments.filterMap (segmentNextValid addr), a ≤ b := by
  simp only [is_valid_offset, List.any_eq_true, Bool.and_eq_true,
    decide_eq_true_eq] at hv
  obtain ⟨s, hs, hsb, hbe⟩ := hv
  have hmax : max addr s.vstart ≤ b := by omega
  refine ⟨max addr s.vstart, ?_, hmax⟩
  exact (mem_nextValid_candidates m addr _).mpr ⟨s, hs, by omega, rfl⟩

/-- `get_next_valid_offset` either returns the smallest valid offset at
or above the query address, or returns `end` when no such offset
exists. -/
theorem get_next_valid_offset_characterization (m : AddressSpaceMap) (addr : Nat) :
    (is_valid_offset m (get_next_valid_offset m addr) = true ∧
      addr ≤ get_next_valid_offset m addr ∧
      ∀ b, addr ≤ b → is_valid_offset m b = true →
        get_next_valid_offset m addr ≤ b) ∨
    ((∀ b, addr ≤ b → is_valid_offset m b = false) ∧
      get_next_valid_offset m addr = m.endAddr) := by
  cases hmin : (m.segments.filterMap (segmentNextValid addr)).min? with
  | some a =>
    left
    have hmema : a ∈ m.segments.filterMap (segmentNextValid addr) :=
      List.min?_mem (fun x y => min_choice x y) hmin
    have hva := candidate_valid m addr a hmema
    have hres : get_next_valid_offset m addr = a := by
      simp [get_next_valid_offset, hmin]
    rw [hres]
    refine ⟨hva.1, hva.2, ?_⟩
    intro b hb hvb
    obtain ⟨c, hc, hcb⟩ := valid_has_candidate m addr b hvb hb
    have hac : a ≤ c :=
      ((List.min?_eq_some_iff (fun x => Nat.le_refl x)
        (fun x y => min_choice x y)
        (fun x y z => Nat.le_min)).mp hmin).2 c hc
    omega
  | none =>
    right
    have hnil : m.segments.filterMap (segmentNextValid addr) = [] :=
      List.min?_eq_none_iff.mp hmin
    constructor
    · intro b hb
      cases hvb : is_valid_offset m b with
      | false => rfl
      | true =>
        obtain ⟨c, hc, _⟩ := valid_has_candidate m addr b hvb hb
        rw [hnil] at hc
        exact absurd hc (List.not_mem_nil c)
    · simp [get_next_valid_offset, hmin]

/-- When every segment lies below `end` (well-formedness of the
address-space bounds, data model §3), the next valid offset never
exceeds `end`. -/
theorem get_next_valid_offset_le_end (m : AddressSpaceMap)
    (hwf : ∀ s ∈ m.segments, s.vend ≤ m.endAddr) (addr : Nat) :
    get_next_valid_offset m addr ≤ m.endAddr := by
  cases hmin : (m.segments.filterMap (segmentNextValid addr)).min? with
  | some a =>
    have hmema : a ∈ m.segments.filterMap (segmentNextValid addr) :=
      List.min?_mem (fun x y => min_choice x y) hmin
    obtain ⟨s, hs, hc, rfl⟩ := (mem_nextValid_candidates m addr a).mp hmema
    have := hwf s hs
    simp [get_next_valid_offset, hmin]
    omega
  | none => simp [get_next_valid_offset, hmin]

/-- `get_next_valid_offset` is monotonic in the query address. -/
theorem get_next_valid_offset_mono (m : AddressSpaceMap)
    (hwf : ∀ s ∈ m.segments, s.vend ≤ m.endAddr) (addr addr2 : Nat)
    (hle : addr ≤ addr2) :
    get_next_valid_offset m addr ≤ get_next_valid_offset m addr2 := by
  rcases get_next_valid_offset_characterization m addr2 with h2 | h2
  · obtain ⟨hv2, hge2, _⟩ := h2
    rcases get_next_valid_offset_characterization m addr with h1 | h1
    · exact h1.2.2 (get_next_valid_offset m addr2) (Nat.le_trans hle hge2) hv2
    · have := h1.1 (get_next_valid_offset m addr2) (Nat.le_trans hle hge2)
      rw [this] at hv2
      exact absurd hv2 (by simp)
  · rw [h2.2]
    exact get_next_valid_offset_le_end m hwf addr

/-- Claim C2: `get_next_valid_offset(addr)` is the smallest valid
address at or above `addr`, or `end` when none exists; it is monotonic
in `addr`; and on the two-segment gap scenario
(`[0x1000,0x1010)`, `[0x2000,0x2010)`) the query at `0x1010` skips the
gap and returns `0x2000`. -/
theorem get_next_valid_offset_spec (m : AddressSpaceMap)
    (hwf : ∀ s ∈ m.segments, s.vend ≤ m.endAddr) (addr addr2 : Nat)
    (hle : addr ≤ addr2) :
    ((is_valid_offset m (get_next_valid_offset m addr) = true ∧
        addr ≤ get_next_valid_offset m addr ∧
        ∀ b, addr ≤ b → is_valid_offset m b = true →
          get_next_valid_offset m addr ≤ b) ∨
      ((∀ b, addr ≤ b → is_valid_offset m b = false) ∧
        get_next_valid_offset m addr = m.endAddr)) ∧
    get_next_valid_offset m addr ≤ get_next_valid_offset m addr2 ∧
    get_next_valid_offset gapDemoMap 0x1010 = 0x2000 :=
  ⟨get_next_valid_offset_characterization m addr,
   get_next_valid_offset_mono m hwf addr addr2 hle,
   by decide⟩

/-- Witness for claim C2 at the gap scenario map. -/
theorem get_next_valid_offset_spec_witness :
    get_next_valid_offset gapDemoMap 0x1000 ≤
      get_next_valid_offset gapDemoMap 0x1010 ∧
    get_next_valid_offset gapDemoMap 0x1010 = 0x2000 :=
  ⟨(get_next_valid_offset_spec gapDemoMap (by decide) 0x1000 0x1010
      (by decide)).2.1,
   (get_next_valid_offset_spec gapDemoMap (by decide) 0x1000 0x1010
      (by decide)).2.2⟩

/-- For a non-negative address, the single-byte helper of
`__getitem__` returns the mapped byte or `IndexError("index not
readable")`. -/
theorem getitemByteAt_eq (v : BinaryViewModel) (a : Int) (ha : 0 ≤ a) :
    getitemByteAt v a =
      match v.mem a.toNat with
      | some b => .ok [b]
      | none => .error (.indexError "index not readable") := by
  have hcond : ¬(a < 0 ∨ (1 : Int) < 0) := by omega
  have ha2 : ¬a < 0 := by omega
  cases hm : v.mem a.toNat with
  | none => simp [getitemByteAt, BinaryView.read, hcond, ha2, readMapped, hm]
  | some b => simp [getitemByteAt, BinaryView.read, hcond, ha2, readMapped, hm]

/-- The clamped slice bounds are non-negative whenever the length they
are clamped against is. -/
theorem sliceIndices_nonneg (startIdx stopIdx : Option Int) (length : Int)
    (hlen : 0 ≤ length) :
    0 ≤ (sliceIndices startIdx stopIdx length).1 ∧
    0 ≤ (sliceIndices startIdx stopIdx length).2 := by
  constructor
  · rcases startIdx with _ | s
    · simp [sliceIndices]
    · simp only [sliceIndices]
      split
      · exact le_max_right _ _
      · exact le_min (by omega) hlen
  · rcases stopIdx with _ | s
    · simpa [sliceIndices] using hlen
    · simp only [sliceIndices]
      split
      · exact le_max_right _ _
      · exact le_min (by omega) hlen

/-- Claim C10: integer indexing returns exactly one byte for a
readable in-bounds index and raises `IndexError` for an out-of-bounds
or unreadable one; an in-range negative index is interpreted as
`len(view) + i`; slice indexing with no step never raises — the bounds
are clamped against the view's `end` and a degenerate clamped range
yields empty bytes. -/
theorem getitem_spec (v : BinaryViewModel) (i : Int) (b : Nat)
    (startIdx stopIdx : Option Int) :
    ((v.start : Int) ≤ i → i < (v.endAddr : Int) → v.mem i.toNat = some b →
      getitem_int v i = .ok [b]) ∧
    (0 ≤ i → ¬((v.start : Int) ≤ i ∧ i < (v.endAddr : Int)) →
      getitem_int v i = .error (.indexError "index out of range")) ∧
    ((v.start : Int) ≤ i → i < (v.endAddr : Int) → v.mem i.toNat = none →
      getitem_int v i = .error (.indexError "index not readable")) ∧
    (i < -(view_len v : Int) →
      getitem_int v i = .error (.indexError "index out of range")) ∧
    (-(view_len v : Int) ≤ i → i < 0 →
      getitem_int v i = getitemByteAt v ((view_len v : Int) + i)) ∧
    (∃ bs, getitem_slice v startIdx stopIdx none = .ok bs) ∧
    ((sliceIndices startIdx stopIdx (v.endAddr : Int)).2 ≤
        (sliceIndices startIdx stopIdx (v.endAddr : Int)).1 →
      getitem_slice v startIdx stopIdx none = .ok []) := by
  have hstart : (0 : Int) ≤ (v.start : Int) := Int.natCast_nonneg _
  have hend : (0 : Int) ≤ (v.endAddr : Int) := Int.natCast_nonneg _
  refine ⟨?_, ?_, ?_, ?_, ?_, ?_, ?_⟩
  · intro h1 h2 hm
    have hnneg : ¬i < 0 := by omega
    rw [getitem_int, if_neg hnneg, if_pos ⟨h1, h2⟩,
      getitemByteAt_eq v i (by omega), hm]
  · intro h0 hout
    have hnneg : ¬i < 0 := by omega
    rw [getitem_int, if_neg hnneg, if_neg hout]
  · intro h1 h2 hm
    have hnneg : ¬i < 0 := by omega
    rw [getitem_int, if_neg hnneg, if_pos ⟨h1, h2⟩,
      getitemByteAt_eq v i (by omega), hm]
  · intro hfar
    have hneg : i < 0 := by
      have : (0 : Int) ≤ (view_len v : Int) := Int.natCast_nonneg _
      omega
    rw [getitem_int, if_pos hneg, if_neg (by omega)]
  · intro hge hneg
    rw [getitem_int, if_pos hneg, if_pos hge]
  · by_cases hdeg : (sliceIndices startIdx stopIdx (v.endAddr : Int)).2 ≤
        (sliceIndices startIdx stopIdx (v.endAddr : Int)).1
    · exact ⟨[], by simp [getitem_slice, hdeg]⟩
    · have hnn := sliceIndices_nonneg startIdx stopIdx (v.endAddr : Int) hend
      have hcond : ¬((sliceIndices startIdx stopIdx (v.endAddr : Int)).1 < 0 ∨
          (sliceIndices startIdx stopIdx (v.endAddr : Int)).2 -
            (sliceIndices startIdx stopIdx (v.endAddr : Int)).1 < 0) := by
        omega
      have hc2 : ¬((sliceIndices startIdx stopIdx (v.endAddr : Int)).1 < 0 ∨
          (sliceIndices startIdx stopIdx (v.endAddr : Int)).2 <
            (sliceIndices startIdx stopIdx (v.endAddr : Int)).1) := by
        omega
      refine ⟨readMapped v.mem
        (sliceIndices startIdx stopIdx (v.endAddr : Int)).1.toNat
        ((sliceIndices startIdx stopIdx (v.endAddr : Int)).2 -
          (sliceIndices startIdx stopIdx (v.endAddr : Int)).1).toNat, ?_⟩
      simp [getitem_slice, hdeg, BinaryView.read, hcond, hc2]
  · intro hdeg
    simp [getitem_slice, hdeg]

/-- Witness for claim C10 on the demo view: a readable index, an
out-of-range index, an unreadable in-range index, a negative index, and
an out-of-bounds slice. -/
theorem getitem_spec_witness :
    getitem_int demoView 0x1001 = .ok [0xBB] ∧
    getitem_int demoView 0x2000 = .error (.indexError "index out of range") ∧
    getitem_int demoView 0x1008 = .error (.indexError "index not readable") ∧
    getitem_int demoView (-1) =
      getitemByteAt demoView ((view_len demoView : Int) + (-1)) ∧
    getitem_slice demoView (some 0x3000) (some 0x4000) none = .ok [] :=
  ⟨(getitem_spec demoView 0x1001 0xBB none none).1
      (by decide) (by decide) (by decide),
   (getitem_spec demoView 0x2000 0 none none).2.1 (by decide) (by decide),
   (getitem_spec demoView 0x1008 0 none none).2.2.1
      (by decide) (by decide) (by decide),
   (getitem_spec demoView (-1) 0 none none).2.2.2.2.1 (by decide) (by decide),
   (getitem_spec demoView 0 0 (some 0x3000) (some 0x4000)).2.2.2.2.2.2
      (by decide)⟩

/-- Dereferencing a reference list only depends on the heap cells the
references point at. -/
theorem readActives_congr (refs : List Nat) (h1 h2 : Heap)
    (hm : ∀ r ∈ refs, h2.mem r = h1.mem r) :
    readActives h2 refs = readActives h1 refs := by
  induction refs with
  | nil => rfl
  | cons r rest ih =>
    have hr := hm r (by simp)
    have hrest := ih fun x hx => hm x (by simp [hx])
    simp [readActives, hr, hrest]

/-- The `ActiveAnalysisInfo` construction loop allocates only fresh
addresses, leaves every pre-existing cell untouched, and the fresh
references dereference back to exactly the copied records. -/
theorem allocActives_spec (rs : List ActiveRec) (h : Heap) :
    h.nextAddr ≤ (allocActives h rs).2.nextAddr ∧
    (∀ a, a < h.nextAddr → (allocActives h rs).2.mem a = h.mem a) ∧
    (∀ r ∈ (allocActives h rs).1,
      h.nextAddr ≤ r ∧ r < (allocActives h rs).2.nextAddr) ∧
    readActives (allocActives h rs).2 (allocActives h rs).1 = some rs := by
  induction rs generalizing h with
  | nil => exact ⟨Nat.le_refl _, fun a _ => rfl, by simp [allocActives], rfl⟩
  | cons r rest ih =>
    obtain ⟨ihgrow, ihpres, ihrange, ihread⟩ := ih (halloc h (.activeInfo r)).2
    have hnext : (halloc h (.activeInfo r)).2.nextAddr = h.nextAddr + 1 := rfl
    refine ⟨?_, ?_, ?_, ?_⟩
    · simp only [allocActives]
      omega
    · intro a ha
      simp only [allocActives]
      rw [ihpres a (by omega)]
      simp [halloc]
      omega
    · intro x hx
      simp only [allocActives, List.mem_cons] at hx ⊢
      rcases hx with rfl | hx
      · constructor
        · exact Nat.le_refl _
        · have h1 : (halloc h (.activeInfo r)).1 = h.nextAddr := rfl
          omega
      · have := ihrange x hx
        omega
    · simp only [allocActives, readActives]
      have hhead : (allocActives (halloc h (.activeInfo r)).2 rest).2.mem
          (halloc h (.activeInfo r)).1 = some (.activeInfo r) := by
        rw [ihpres (halloc h (.activeInfo r)).1 (by simp [halloc])]
        simp [halloc]
      rw [hhead, ihread]

/-- Claim C9: `analysis_info` / `analysis_progress` return freshly
allocated snapshot objects whose contents are copies of the scheduler's
live state at call time and whose cells are disjoint from the live
state's cell, so a later mutation of the scheduler's state leaves an
already-returned snapshot unchanged. -/
theorem analysis_snapshot_copy (h : Heap) (root : Nat) (live : SchedLive)
    (hlive : h.mem root = some (.sched live)) (hroot : root < h.nextAddr) :
    (∃ ai h2, analysis_info h root = some (ai, h2) ∧
      readSnapshot h2 ai = some (live.state, live.analysisTime, live.active) ∧
      ∀ live2, readSnapshot (hwrite h2 root (.sched live2)) ai =
        readSnapshot h2 ai) ∧
    (∃ pr h3, analysis_progress h root = some (pr, h3) ∧
      h3.mem pr = some (.analysisProgress live.state live.count live.total) ∧
      ∀ live2, (hwrite h3 root (.sched live2)).mem pr = h3.mem pr) := by
  constructor
  · obtain ⟨hgrow, hpres, hrange, hread⟩ := allocActives_spec live.active h
    refine ⟨(allocActives h live.active).2.nextAddr,
      (halloc (allocActives h live.active).2
        (.analysisInfo live.state live.analysisTime
          (allocActives h live.active).1)).2, ?_, ?_, ?_⟩
    · simp [analysis_info, hlive, halloc]
    · have hmemai : (halloc (allocActives h live.active).2
          (.analysisInfo live.state live.analysisTime
            (allocActives h live.active).1)).2.mem
          (allocActives h live.active).2.nextAddr =
          some (.analysisInfo live.state live.analysisTime
            (allocActives h live.active).1) := by
        simp [halloc]
      have hra : readActives (halloc (allocActives h live.active).2
          (.analysisInfo live.state live.analysisTime
            (allocActives h live.active).1)).2
          (allocActives h live.active).1 =
          readActives (allocActives h live.active).2
            (allocActives h live.active).1 := by
        refine readActives_congr _ _ _ ?_
        intro x hx
        have := hrange x hx
        simp [halloc]
        omega
      simp [readSnapshot, hmemai, hra, hread]
    · intro live2
      have hmemai : (halloc (allocActives h live.active).2
          (.analysisInfo live.state live.analysisTime
            (allocActives h live.active).1)).2.mem
          (allocActives h live.active).2.nextAddr =
          some (.analysisInfo live.state live.analysisTime
            (allocActives h live.active).1) := by
        simp [halloc]
      have hai_ne : (allocActives h live.active).2.nextAddr ≠ root := by
        omega
      have hmemai2 : (hwrite (halloc (allocActives h live.active).2
          (.analysisInfo live.state live.analysisTime
            (allocActives h live.active).1)).2 root (.sched live2)).mem
          (allocActives h live.active).2.nextAddr =
          some (.analysisInfo live.state live.analysisTime
            (allocActives h live.active).1) := by
        rw [show (hwrite (halloc (allocActives h live.active).2
          (.analysisInfo live.state live.analysisTime
            (allocActives h live.active).1)).2 root (.sched live2)).mem
          (allocActives h live.active).2.nextAddr =
          (halloc (allocActives h live.active).2
          (.analysisInfo live.state live.analysisTime
            (allocActives h live.active).1)).2.mem
          (allocActives h live.active).2.nextAddr from by simp [hwrite, hai_ne]]
        exact hmemai
      have hra2 : readActives (hwrite (halloc (allocActives h live.active).2
          (.analysisInfo live.state live.analysisTime
            (allocActives h live.active).1)).2 root (.sched live2))
          (allocActives h live.active).1 =
          readActives (halloc (allocActives h live.active).2
            (.analysisInfo live.state live.analysisTime
              (allocActives h live.active).1)).2
            (allocActives h live.active).1 := by
        refine readActives_congr _ _ _ ?_
        intro x hx
        have := hrange x hx
        have hxne : x ≠ root := by omega
        simp [hwrite, hxne]
      simp [readSnapshot, hmemai, hmemai2, hra2]
  · refine ⟨h.nextAddr,
      (halloc h (.analysisProgress live.state live.count live.total)).2,
      ?_, ?_, ?_⟩
    · simp [analysis_progress, hlive, halloc]
    · simp [halloc]
    · intro live2
      have hne : h.nextAddr ≠ root := by omega
      simp [hwrite, halloc, hne]

/-- Witness for claim C9 on a concrete heap whose scheduler cell holds
two active functions. -/
theorem analysis_snapshot_copy_witness :
    demoHeap.mem 0 = some (.sched demoLive) ∧
    ((∃ ai h2, analysis_info demoHeap 0 = some (ai, h2) ∧
      readSnapshot h2 ai =
        some (demoLive.state, demoLive.analysisTime, demoLive.active) ∧
      ∀ live2, readSnapshot (hwrite h2 0 (.sched live2)) ai =
        readSnapshot h2 ai) ∧
    (∃ pr h3, analysis_progress demoHeap 0 = some (pr, h3) ∧
      h3.mem pr =
        some (.analysisProgress demoLive.state demoLive.count demoLive.total) ∧
      ∀ live2, (hwrite h3 0 (.sched live2)).mem pr = h3.mem pr)) :=
  ⟨rfl, analysis_snapshot_copy demoHeap 0 demoLive rfl (by decide)⟩
